import Mathlib

/-!
Verification of the CNAB-400 to spreadsheet converter (`main.py`).

The program is embedded shallowly: a decoded text line is a `List Char`,
byte contents are `List ℕ` (each element a byte value), and monetary
amounts are centavos counted by a natural number.  Python's
`int(s) / 100.0` followed by `"{:,.2f}"` rendering is modelled as exact
arithmetic on the centavos integer where the float detour is exact (all
13-digit amounts the format carries); the `OverflowError` that the
unguarded conversion raises at `2^1024 - 2^970` is modelled explicitly
by `valorDeChk` and `parse_cnab_linha_chk`, and the bare `except` of
`parse_valor` that turns it into zero by its overflow branch.  Python's
`\d`, `[a-zA-Z]` and
friends act on latin-1-decoded text, where the characters of Unicode
category `Nd` are exactly the ASCII digits, so `Char.isDigit`-style
ASCII predicates model the regex character classes faithfully.
-/

/-- Numeric value of an ASCII digit character, as used by Python's `int`. -/
def charVal (c : Char) : ℕ := c.toNat - 48

/-- Value of a most-significant-first ASCII digit string, as computed by
Python's `int` on a digit-only string. -/
def natOfDigits (ds : List Char) : ℕ := ds.foldl (fun a c => a * 10 + charVal c) 0

/-- ASCII digit character for a value below ten. -/
def digitoChar (d : ℕ) : Char := Char.ofNat (48 + d)

/-- Characters stripped by Python's `str.strip` that occur in the latin-1
range: space, tab, LF, VT, FF, CR, the C1 controls FS/GS/RS/US and NEL,
and no-break space. -/
def pySpace (c : Char) : Bool :=
  c.toNat = 32 || c.toNat = 9 || c.toNat = 10 || c.toNat = 11 || c.toNat = 12 ||
  c.toNat = 13 || c.toNat = 28 || c.toNat = 29 || c.toNat = 30 || c.toNat = 31 ||
  c.toNat = 133 || c.toNat = 160

/-- Python's `str.strip()`: drop leading and trailing whitespace. -/
def pyStrip (l : List Char) : List Char :=
  ((l.dropWhile pySpace).reverse.dropWhile pySpace).reverse

/-- Python's slice `l[a:b]` for `0 ≤ a ≤ b`. -/
def pySlice (l : List Char) (a b : ℕ) : List Char := (l.drop a).take (b - a)

/-- Smallest integer CPython cannot convert to a binary64 double:
`PyLong_AsDouble` raises `OverflowError` exactly for magnitudes of at
least `2^1024 - 2^970`, the first integer that rounds to infinity.
`int(...) / 100.0` converts the integer to a double before dividing, so
this is the bound at which the program's amount arithmetic raises. -/
def limiteFloat : ℕ := 2 ^ 1024 - 2 ^ 970

/-- `parse_valor` of `main.py`, with the result in centavos: strip the
string, clear non-digit characters, and read the remainder as an integer
number of centavos; empty or `"0"` input gives zero.  The original's
`int(valor_limpo) / 100.0` sits inside a bare `try`/`except`, so the
`OverflowError` raised when the integer reaches `limiteFloat` also
yields zero; below the bound the embedding keeps the exact centavos
count, which coincides with the returned float's value in centavos
whenever it is small enough for the double to be exact (in particular
below `2^53`; CPython 3.11's 4300-digit `int()` limit, likewise caught
by the bare `except`, can only fire on inputs far above `limiteFloat`
or padded with thousands of leading zeros, which no caller produces). -/
def parse_valor (valor_str : List Char) : ℕ :=
  let valor_str := pyStrip valor_str
  if valor_str = [] then 0
  else
    let valor_limpo := valor_str.filter Char.isDigit
    if valor_limpo = [] then 0
    else if valor_limpo = ['0'] then 0
    else if limiteFloat ≤ natOfDigits valor_limpo then 0
    else natOfDigits valor_limpo

/-- Decimal digit string of a natural number, most significant first,
`"0"` for zero (auxiliary accumulator form; the first argument is fuel
that strictly exceeds the value, so the exhaustion branch is never
reached from `toDec`). -/
def toDecAux : ℕ → ℕ → List Char → List Char
  | 0, _, acc => acc
  | fuel + 1, n, acc =>
    if n < 10 then digitoChar n :: acc
    else toDecAux fuel (n / 10) (digitoChar (n % 10) :: acc)

/-- Decimal digit string of a natural number, most significant first. -/
def toDec (n : ℕ) : List Char := toDecAux (n + 1) n []

/-- Insert a thousands separator after every third character of a reversed
digit string. -/
def agrupaMilharesRev : List Char → List Char
  | a :: b :: c :: d :: rest => a :: b :: c :: '.' :: agrupaMilharesRev (d :: rest)
  | l => l

/-- Thousands grouping of a digit string, separator `'.'`, grouped from the
right, as produced by Python's `"{:,}"` format after the separator swap. -/
def agrupaMilhares (ds : List Char) : List Char := (agrupaMilharesRev ds.reverse).reverse

/-- Exactly two fraction digits, as printed by Python's `"%.2f"` for a
fraction below one hundred. -/
def fracao2 (m : ℕ) : List Char := [digitoChar (m / 10), digitoChar (m % 10)]

/-- `numero_para_valor` of `main.py` on an exact centavos count: render
`"R$ <integer part with dot thousands separators>,<two decimals>"`.
The Python original formats the float `n / 100` with `"R$ {:,.2f}"` and
then swaps `','`/`'.'`; for every amount the double pipeline renders
exactly — in particular all 13-digit CNAB amounts, far below the
`~2^45` centavos where double rounding first reaches the second
decimal — it prints exactly this string, and beyond that regime this
definition is only the idealized (unrounded) rendering. -/
def numero_para_valor (n : ℕ) : List Char :=
  'R' :: '$' :: ' ' :: (agrupaMilhares (toDec (n / 100)) ++ ',' :: fracao2 (n % 100))

/-- Composition the specification calls `formatMoney`: read raw digits as
centavos via `parse_valor` and render them via `numero_para_valor`. -/
def formatMoney (s : List Char) : List Char := numero_para_valor (parse_valor s)

/-- `formatar_cpf_cnpj` of `main.py`: keep only digits, keep the last
eleven when more remain, left-pad with `'0'` to eleven (`zfill`), and
punctuate as `XXX.XXX.XXX-XX`. -/
def formatar_cpf_cnpj (doc : List Char) : List Char :=
  let d1 := doc.filter Char.isDigit
  let d2 := if 11 < d1.length then d1.drop (d1.length - 11) else d1
  let d3 := List.replicate (11 - d2.length) '0' ++ d2
  if d3.length = 11 then
    d3.take 3 ++ '.' :: ((d3.drop 3).take 3 ++ '.' :: ((d3.drop 6).take 3 ++ '-' :: d3.drop 9))
  else d3

/-- `formatar_cep` of `main.py`: keep only digits and punctuate as
`XXXXX-XXX` when exactly eight remain. -/
def formatar_cep (cep : List Char) : List Char :=
  let c := cep.filter Char.isDigit
  if c.length = 8 then c.take 5 ++ '-' :: c.drop 5 else c

/-- `formatar_telefone` of `main.py`: keep only digits and punctuate
eleven-digit and ten-digit numbers; anything else is returned bare. -/
def formatar_telefone (tel : List Char) : List Char :=
  let t := tel.filter Char.isDigit
  if t.length = 11 then '(' :: (t.take 2 ++ ')' :: ' ' :: ((t.drop 2).take 5 ++ '-' :: t.drop 7))
  else if t.length = 10 then '(' :: (t.take 2 ++ ')' :: ' ' :: ((t.drop 2).take 4 ++ '-' :: t.drop 6))
  else t

/-- Length of the run of `'0'` characters at the head of the list: the
maximal amount the greedy `0{5,}` of the value pattern can consume. -/
def zerosRun (l : List Char) : ℕ := (l.takeWhile (fun c => c == '0')).length

/-- Lazy group of the value pattern `0{5,}(\d+?)457`: the shortest
non-empty digit prefix of `l` that is followed immediately by the literal
`457`, as Python's non-greedy `(\d+?)` selects it. -/
def lazyGroup : List Char → Option (List Char)
  | [] => none
  | c :: rest =>
    if c.isDigit then
      if rest.take 3 = ['4', '5', '7'] then some [c]
      else (lazyGroup rest).map (fun g => c :: g)
    else none

/-- Backtracking of the greedy `0{5,}` at one start position: try `k`
zeros consumed, then `k - 1`, ..., stopping below five, and return the
first lazy group that completes the pattern. -/
def tryZeros (l : List Char) : ℕ → Option (List Char)
  | 0 => none
  | k + 1 =>
    if k + 1 < 5 then none
    else
      match lazyGroup (l.drop (k + 1)) with
      | some g => some g
      | none => tryZeros l k

/-- Python's `re.search(r'0{5,}(\d+?)457', linha)` returning the captured
group: scan start positions left to right; at each, let the greedy
`0{5,}` consume from the zero run downward and the lazy `(\d+?)` take the
shortest completion. -/
def searchValor : List Char → Option (List Char)
  | [] => none
  | c :: rest =>
    match tryZeros (c :: rest) (zerosRun (c :: rest)) with
    | some g => some g
    | none => searchValor rest

/-- Python's `re.search(r'\d{8}', region)` returning the match offset:
the leftmost position where eight consecutive digit characters start. -/
def buscaCep : List Char → Option ℕ
  | [] => none
  | c :: rest =>
    if 8 ≤ (c :: rest).length ∧ ((c :: rest).take 8).all Char.isDigit then some 0
    else (buscaCep rest).map (fun i => i + 1)

/-- Local-part characters `[a-zA-Z0-9._%+-]` of the email pattern. -/
def emailLocalChar (c : Char) : Bool :=
  c.isAlpha || c.isDigit || c == '.' || c == '_' || c == '%' || c == '+' || c == '-'

/-- Domain characters `[a-zA-Z0-9.-]` of the email pattern. -/
def emailDomChar (c : Char) : Bool := c.isAlpha || c.isDigit || c == '.' || c == '-'

/-- Backtracking of the greedy `[a-zA-Z0-9.-]+` of the email pattern:
try `p` domain characters, then `p - 1`, ..., requiring a `'.'` next and
at least two letters after it; the greedy `[a-zA-Z]{2,}` then takes the
whole letter run.  Returns the matched length after the `'@'`. -/
def emailDomTry (r2 : List Char) : ℕ → Option ℕ
  | 0 => none
  | p + 1 =>
    match r2.drop (p + 1) with
    | '.' :: restA =>
      let la := (restA.takeWhile Char.isAlpha).length
      if 2 ≤ la then some (p + 1 + 1 + la) else emailDomTry r2 p
    | _ => emailDomTry r2 p

/-- Match of the email pattern
`[a-zA-Z][a-zA-Z0-9._%+-]*@[a-zA-Z0-9.-]+\.[a-zA-Z]{2,}` anchored at the
head of the list, returning the matched characters.  The greedy
`[a-zA-Z0-9._%+-]*` needs no backtracking because `'@'` is outside its
class, so the `'@'` can only sit at the end of the maximal run. -/
def emailMatchAt : List Char → Option (List Char)
  | [] => none
  | c :: rest =>
    if c.isAlpha then
      let localLen := (rest.takeWhile emailLocalChar).length
      match rest.drop localLen with
      | '@' :: r2 =>
        match emailDomTry r2 ((r2.takeWhile emailDomChar).length) with
        | some m => some (c :: rest.take (localLen + 1 + m))
        | none => none
      | _ => none
    else none

/-- Python's `re.search` of the email pattern: leftmost start position
wins, whole match returned. -/
def searchEmail : List Char → Option (List Char)
  | [] => none
  | c :: rest =>
    match emailMatchAt (c :: rest) with
    | some e => some e
    | none => searchEmail rest

/-- One parsed detail line of `main.py` (`parse_cnab_linha`'s dictionary).
`valor` is the amount in centavos. -/
structure DetailRecord where
  nome : List Char
  cpf_cnpj : List Char
  valor : ℕ
  id_titulo : List Char
  endereco : List Char
  cep : List Char
  email : List Char
  telefone : List Char
deriving Repr, DecidableEq

/-- Operation identifier of a line (`id_titulo` of `parse_cnab_linha`):
trim the fixed field at columns 108-122, drop a leading `"210"` when
present, and, when a hyphen occurs, keep only the part before the first
hyphen (Python's `split('-')[0]`). -/
def idTituloDe (linha : List Char) : List Char :=
  let id_titulo_parcela := pyStrip (pySlice linha 108 122)
  let id1 :=
    if id_titulo_parcela.take 3 = ['2', '1', '0'] then id_titulo_parcela.drop 3
    else id_titulo_parcela
  if '-' ∈ id1 then id1.takeWhile (fun c => !(c == '-')) else id1

/-- Amount of a line in centavos (`valor` of `parse_cnab_linha`): scan
the whole line for `0{5,}(\d+?)457` and read the captured group; no
match gives zero.  This is the value-level model; the error behaviour
of the unguarded `int(...) / 100.0` on oversized groups is captured by
`valorDeChk`. -/
def valorDe (linha : List Char) : ℕ :=
  match searchValor linha with
  | some g => natOfDigits g
  | none => 0

/-- The amount computation of `parse_cnab_linha` (`int(valor_centavos)
/ 100.0`, with no handler in scope) with its error path explicit: the
conversion raises `OverflowError` exactly when the captured integer
reaches `limiteFloat`; below the bound the stored double is determined
by the centavos count, which stands for it here and agrees with it
exactly whenever the group is below `2^53`. -/
def valorDeChk (linha : List Char) : Except Unit ℕ :=
  match searchValor linha with
  | some g =>
    if limiteFloat ≤ natOfDigits g then Except.error ()
    else Except.ok (natOfDigits g)
  | none => Except.ok 0

/-- Postal code of a line (`cep` of `parse_cnab_linha`): leftmost eight
digit run within columns 310-340, formatted, else empty. -/
def cepDe (linha : List Char) : List Char :=
  match buscaCep (pySlice linha 310 340) with
  | some j => formatar_cep (((pySlice linha 310 340).drop j).take 8)
  | none => []

/-- Email of a line (`email` of `parse_cnab_linha`): pattern scan over
columns 326-385, lowercased, else empty. -/
def emailDe (linha : List Char) : List Char :=
  match searchEmail (pySlice linha 326 385) with
  | some e => e.map Char.toLower
  | none => []

/-- `parse_cnab_linha` of `main.py`: reject lines shorter than 400
characters or whose first character is not `'1'`; otherwise slice the
fixed fields (name 234-274, document 220-234, address 274-326, phone
382-394) and extract the derived fields.  This value-level model is
total; `parse_cnab_linha_chk` additionally models the `OverflowError`
that escapes the function when the amount conversion overflows. -/
def parse_cnab_linha (linha : List Char) : Option DetailRecord :=
  if linha.length < 400 then none
  else if linha.take 1 ≠ ['1'] then none
  else
    some
      ⟨pyStrip (pySlice linha 234 274),
       formatar_cpf_cnpj (pyStrip (pySlice linha 220 234)),
       valorDe linha,
       idTituloDe linha,
       pyStrip (pySlice linha 274 326),
       cepDe linha,
       emailDe linha,
       formatar_telefone (pyStrip (pySlice linha 382 394))⟩

/-- `parse_cnab_linha` with the amount's error path explicit: the
amount conversion has no `try` around it, so its `OverflowError`
escapes the parser (`Except.error ()`); every non-raising line returns
exactly as in `parse_cnab_linha`. -/
def parse_cnab_linha_chk (linha : List Char) : Except Unit (Option DetailRecord) :=
  if linha.length < 400 then Except.ok none
  else if linha.take 1 ≠ ['1'] then Except.ok none
  else
    match valorDeChk linha with
    | Except.error e => Except.error e
    | Except.ok v =>
      Except.ok (some
        ⟨pyStrip (pySlice linha 234 274),
         formatar_cpf_cnpj (pyStrip (pySlice linha 220 234)),
         v,
         idTituloDe linha,
         pyStrip (pySlice linha 274 326),
         cepDe linha,
         emailDe linha,
         formatar_telefone (pyStrip (pySlice linha 382 394))⟩)

/-- One aggregated output row of `main.py` (`operacoes_agrupadas`' value),
keyed by `id_titulo`.  `valor_total` is the running sum in centavos. -/
structure OperationSummary where
  nome : List Char
  cpf_cnpj : List Char
  quantidade_parcelas : ℕ
  valor_total : ℕ
  id_titulo : List Char
  endereco : List Char
  cep : List Char
  email : List Char
  telefone : List Char
deriving Repr, DecidableEq

/-- Seeding of an aggregation entry from the first record of its
identifier, count 1 and the record's amount as the running total. -/
def novaOperacao (r : DetailRecord) : OperationSummary :=
  ⟨r.nome, r.cpf_cnpj, 1, r.valor, r.id_titulo, r.endereco, r.cep, r.email, r.telefone⟩

/-- Update applied to each stored entry when a further record arrives:
the entry holding the record's identifier gains one installment and the
record's amount; every other entry is untouched. -/
def atualizaOperacao (r : DetailRecord) (o : OperationSummary) : OperationSummary :=
  if o.id_titulo = r.id_titulo then
    { o with quantidade_parcelas := o.quantidade_parcelas + 1,
             valor_total := o.valor_total + r.valor }
  else o

/-- One aggregation step of `processar_arquivo`: if the record's
identifier is already present, bump that entry's counters, else append a
fresh entry.  Appending preserves the dictionary's insertion order. -/
def insereRegistro (acc : List OperationSummary) (r : DetailRecord) : List OperationSummary :=
  if ∃ o ∈ acc, o.id_titulo = r.id_titulo then acc.map (atualizaOperacao r)
  else acc ++ [novaOperacao r]

/-- The grouping loop of `processar_arquivo`: fold the ordered records
into the insertion-ordered entry list. -/
def agrupar (rs : List DetailRecord) : List OperationSummary := rs.foldl insereRegistro []

/-- One row handed to the spreadsheet writer: the summary with the
installment count rendered as a decimal string and the total rendered
as currency. -/
structure LinhaExport where
  nome : List Char
  cpf_cnpj : List Char
  parcelas : List Char
  valor : List Char
  id_titulo : List Char
  endereco : List Char
  cep : List Char
  email : List Char
  telefone : List Char
deriving Repr, DecidableEq

/-- Conversion of one aggregated entry into its export row
(`registros_agrupados` of `processar_arquivo`). -/
def paraExport (o : OperationSummary) : LinhaExport :=
  ⟨o.nome, o.cpf_cnpj, toDec o.quantidade_parcelas, numero_para_valor o.valor_total,
   o.id_titulo, o.endereco, o.cep, o.email, o.telefone⟩

/-- The record-collection loop of `processar_arquivo`: feed each decoded
line of length at least 400 through the parser and append the records in
line order. -/
def extrairRegistros (linhas : List (List Char)) : List DetailRecord :=
  linhas.foldl
    (fun registros linha =>
      if 400 ≤ linha.length then
        match parse_cnab_linha linha with
        | some reg => registros ++ [reg]
        | none => registros
      else registros)
    []

/-- Core of `processar_arquivo` after decoding: collect the records; an
empty collection is the file-level failure `none`, otherwise the
aggregated export rows are produced. -/
def processar_linhas (linhas : List (List Char)) : Option (List LinhaExport) :=
  let registros := extrairRegistros linhas
  if registros = [] then none else some ((agrupar registros).map paraExport)

/-- Latin-1 (ISO-8859-1) decoding of one byte value: the code point is
the byte itself, defined for every value below 256.  This models the
Python codec, which assigns a character to all 256 byte values. -/
def decodeLatin1Byte (b : ℕ) : Option Char :=
  if b < 256 then some (Char.ofNat b) else none

/-- Latin-1 decoding of a byte sequence: byte-wise, failing only if some
element is not a byte value at all. -/
def decodeLatin1 : List ℕ → Option (List Char)
  | [] => some []
  | b :: bs =>
    match decodeLatin1Byte b, decodeLatin1 bs with
    | some c, some cs => some (c :: cs)
    | _, _ => none

/-- The encoding-fallback loop of `processar_arquivo` over the candidate
list `['latin-1', 'utf-8', 'cp1252']`: try each decoder in order and keep
the first success, together with the index of the encoding that was used.
The utf-8 and cp1252 decoders are taken as parameters: the loop's result
turns out not to depend on them. -/
def leituraComFallback (decUtf8 decCp1252 : List ℕ → Option (List Char))
    (bs : List ℕ) : Option (ℕ × List Char) :=
  match decodeLatin1 bs with
  | some s => some (0, s)
  | none =>
    match decUtf8 bs with
    | some s => some (1, s)
    | none =>
      match decCp1252 bs with
      | some s => some (2, s)
      | none => none

/-- The identifier normalization exactly as the specification words it:
remove the leading bank code `"210"` when the trimmed field starts with
it, then remove the first hyphen and everything after it. -/
def normalizacaoSpec (f : List Char) : List Char :=
  (if f.take 3 = ['2', '1', '0'] then f.drop 3 else f).takeWhile (fun c => !(c == '-'))

/-- Entries of an aggregation state holding a given identifier. -/
def entrada (k : List Char) (l : List OperationSummary) : List OperationSummary :=
  l.filter (fun o => o.id_titulo == k)

/-- Records of a list carrying a given identifier. -/
def regsCom (k : List Char) (rs : List DetailRecord) : List DetailRecord :=
  rs.filter (fun r => r.id_titulo == k)

/-- Counter accumulation of a list of records into one entry: one extra
installment and the record's amount per record, descriptive fields kept. -/
def acumula (o : OperationSummary) (rs : List DetailRecord) : OperationSummary :=
  rs.foldl
    (fun o r =>
      { o with quantidade_parcelas := o.quantidade_parcelas + 1,
               valor_total := o.valor_total + r.valor })
    o

/-- First-seen order of the keys of a list: keep each key at its first
occurrence, as iteration over a Python dict yields insertion order. -/
def firstSeen (ks : List (List Char)) : List (List Char) :=
  ks.foldl (fun acc k => if k ∈ acc then acc else acc ++ [k]) []

lemma takeWhile_eq_self_of {α : Type} {p : α → Bool} :
    ∀ {l : List α}, (∀ c ∈ l, p c) → l.takeWhile p = l := by
  intro l
  induction l with
  | nil => intro _; rfl
  | cons c t ih =>
    intro h
    have hc := h c (List.mem_cons_self c t)
    simp [List.takeWhile_cons, hc, ih (fun x hx => h x (List.mem_cons_of_mem c hx))]

lemma parse_none_of (l : List Char) (h : l.length < 400 ∨ l.take 1 ≠ ['1']) :
    parse_cnab_linha l = none := by
  unfold parse_cnab_linha
  rcases h with h | h
  · rw [if_pos h]
  · by_cases h400 : l.length < 400
    · rw [if_pos h400]
    · rw [if_neg h400, if_pos h]

lemma parse_some (l : List Char) (h400 : 400 ≤ l.length) (h1 : l.take 1 = ['1']) :
    parse_cnab_linha l =
      some
        ⟨pyStrip (pySlice l 234 274),
         formatar_cpf_cnpj (pyStrip (pySlice l 220 234)),
         valorDe l, idTituloDe l,
         pyStrip (pySlice l 274 326),
         cepDe l, emailDe l,
         formatar_telefone (pyStrip (pySlice l 382 394))⟩ := by
  unfold parse_cnab_linha
  rw [if_neg (by omega), if_neg (by simp [h1])]

lemma parse_some_inv (l : List Char) (r : DetailRecord) (h : parse_cnab_linha l = some r) :
    400 ≤ l.length ∧ l.take 1 = ['1'] ∧
      r = ⟨pyStrip (pySlice l 234 274),
           formatar_cpf_cnpj (pyStrip (pySlice l 220 234)),
           valorDe l, idTituloDe l,
           pyStrip (pySlice l 274 326),
           cepDe l, emailDe l,
           formatar_telefone (pyStrip (pySlice l 382 394))⟩ := by
  by_cases h400 : l.length < 400
  · rw [parse_none_of l (Or.inl h400)] at h; cases h
  · by_cases h1 : l.take 1 ≠ ['1']
    · rw [parse_none_of l (Or.inr h1)] at h; cases h
    · push_neg at h1
      refine ⟨by omega, h1, ?_⟩
      rw [parse_some l (by omega) h1] at h
      exact (Option.some_inj.mp h).symm

lemma valorDeChk_error_iff (l : List Char) :
    valorDeChk l = Except.error () ↔
      ∃ g, searchValor l = some g ∧ limiteFloat ≤ natOfDigits g := by
  unfold valorDeChk
  cases hsv : searchValor l with
  | some g =>
    dsimp only
    by_cases hb : limiteFloat ≤ natOfDigits g
    · rw [if_pos hb]
      exact ⟨fun _ => ⟨g, rfl, hb⟩, fun _ => rfl⟩
    · rw [if_neg hb]
      constructor
      · intro h
        cases h
      · rintro ⟨g2, hg2, hb2⟩
        obtain rfl : g = g2 := Option.some_inj.mp hg2
        exact absurd hb2 hb
  | none =>
    dsimp only
    constructor
    · intro h
      cases h
    · rintro ⟨g2, hg2, -⟩
      cases hg2

lemma valorDeChk_ok_of_lt (l g : List Char) (h : searchValor l = some g)
    (hlt : natOfDigits g < limiteFloat) : valorDeChk l = Except.ok (natOfDigits g) := by
  unfold valorDeChk
  rw [h]
  dsimp only
  rw [if_neg (by omega)]

lemma valorDeChk_ok_of_none (l : List Char) (h : searchValor l = none) :
    valorDeChk l = Except.ok 0 := by
  unfold valorDeChk
  rw [h]

lemma parse_chk_none_of (l : List Char) (h : l.length < 400 ∨ l.take 1 ≠ ['1']) :
    parse_cnab_linha_chk l = Except.ok none := by
  unfold parse_cnab_linha_chk
  rcases h with h | h
  · rw [if_pos h]
  · by_cases h400 : l.length < 400
    · rw [if_pos h400]
    · rw [if_neg h400, if_pos h]

lemma parse_chk_accepted (l : List Char) (h400 : 400 ≤ l.length) (h1 : l.take 1 = ['1']) :
    parse_cnab_linha_chk l =
      match valorDeChk l with
      | Except.error e => Except.error e
      | Except.ok v =>
        Except.ok (some
          ⟨pyStrip (pySlice l 234 274),
           formatar_cpf_cnpj (pyStrip (pySlice l 220 234)),
           v, idTituloDe l,
           pyStrip (pySlice l 274 326),
           cepDe l, emailDe l,
           formatar_telefone (pyStrip (pySlice l 382 394))⟩) := by
  unfold parse_cnab_linha_chk
  rw [if_neg (by omega), if_neg (by simp [h1])]

set_option maxHeartbeats 2000000 in
/-- C3 (amended): the parser returns no record exactly on lines shorter
than 400 or not starting with `'1'`; on an accepted line it returns a
record whose name, address and document fields are the (total, possibly
empty) formatted slices, except that the unguarded amount conversion
raises, and the error escapes, exactly when the captured amount group
reaches CPython's float bound. -/
theorem c3_line_parser_acceptance (l : List Char) :
    (parse_cnab_linha_chk l = Except.ok none ↔ (l.length < 400 ∨ l.take 1 ≠ ['1'])) ∧
    (∀ r : DetailRecord, parse_cnab_linha_chk l = Except.ok (some r) →
      r.nome = pyStrip (pySlice l 234 274) ∧
      r.endereco = pyStrip (pySlice l 274 326) ∧
      r.cpf_cnpj = formatar_cpf_cnpj (pyStrip (pySlice l 220 234))) ∧
    (parse_cnab_linha_chk l = Except.error () ↔
      (400 ≤ l.length ∧ l.take 1 = ['1'] ∧
        ∃ g, searchValor l = some g ∧ limiteFloat ≤ natOfDigits g)) := by
  by_cases hacc : 400 ≤ l.length ∧ l.take 1 = ['1']
  · obtain ⟨h400, h1⟩ := hacc
    cases hv : valorDeChk l with
    | error e =>
      obtain rfl : e = () := rfl
      have hpc : parse_cnab_linha_chk l = Except.error () := by
        rw [parse_chk_accepted l h400 h1, hv]
      refine ⟨?_, ?_, ?_⟩
      · rw [hpc]
        constructor
        · intro h
          cases h
        · intro h
          rcases h with h | h
          · exact absurd h (by omega)
          · exact absurd h1 h
      · intro r hr
        rw [hpc] at hr
        cases hr
      · rw [hpc]
        exact ⟨fun _ => ⟨h400, h1, (valorDeChk_error_iff l).mp hv⟩, fun _ => rfl⟩
    | ok v =>
      have hpc : parse_cnab_linha_chk l =
          Except.ok (some
            ⟨pyStrip (pySlice l 234 274),
             formatar_cpf_cnpj (pyStrip (pySlice l 220 234)),
             v, idTituloDe l,
             pyStrip (pySlice l 274 326),
             cepDe l, emailDe l,
             formatar_telefone (pyStrip (pySlice l 382 394))⟩) := by
        rw [parse_chk_accepted l h400 h1, hv]
      refine ⟨?_, ?_, ?_⟩
      · rw [hpc]
        constructor
        · intro h
          simp at h
        · intro h
          rcases h with h | h
          · exact absurd h (by omega)
          · exact absurd h1 h
      · intro r hr
        rw [hpc] at hr
        have hrec : r = ⟨pyStrip (pySlice l 234 274),
            formatar_cpf_cnpj (pyStrip (pySlice l 220 234)),
            v, idTituloDe l,
            pyStrip (pySlice l 274 326),
            cepDe l, emailDe l,
            formatar_telefone (pyStrip (pySlice l 382 394))⟩ := by
          injection hr with h2
          injection h2 with h3
          exact h3.symm
        exact ⟨congrArg DetailRecord.nome hrec, congrArg DetailRecord.endereco hrec,
               congrArg DetailRecord.cpf_cnpj hrec⟩
      · rw [hpc]
        constructor
        · intro h
          cases h
        · rintro ⟨-, -, hg⟩
          have he := (valorDeChk_error_iff l).mpr hg
          rw [hv] at he
          cases he
  · have hno : l.length < 400 ∨ l.take 1 ≠ ['1'] := by
      by_cases h400 : 400 ≤ l.length
      · exact Or.inr fun h1 => hacc ⟨h400, h1⟩
      · exact Or.inl (by omega)
    have hpc := parse_chk_none_of l hno
    refine ⟨?_, ?_, ?_⟩
    · rw [hpc]
      exact ⟨fun _ => hno, fun _ => rfl⟩
    · intro r hr
      rw [hpc] at hr
      simp at hr
    · rw [hpc]
      constructor
      · intro h
        cases h
      · rintro ⟨h400, h1, -⟩
        exact absurd ⟨h400, h1⟩ hacc

/-- Line used to witness the accepting branch of the parser claims: a
`'1'` followed by 399 blanks. -/
def linhaBranca : List Char := '1' :: List.replicate 399 ' '

/-- Record produced by the parser on `linhaBranca`. -/
def registroBranco : DetailRecord :=
  ⟨[], "000.000.000-00".data, 0, [], [], [], [], []⟩

set_option maxRecDepth 16000 in
/-- Witness for C3 at a concrete accepted, non-raising line. -/
theorem c3_line_parser_acceptance_witness :
    registroBranco.nome = pyStrip (pySlice linhaBranca 234 274) ∧
    registroBranco.endereco = pyStrip (pySlice linhaBranca 274 326) ∧
    registroBranco.cpf_cnpj = formatar_cpf_cnpj (pyStrip (pySlice linhaBranca 220 234)) :=
  (c3_line_parser_acceptance linhaBranca).2.1 registroBranco
    (by
      rw [parse_chk_accepted linhaBranca (by decide) (by decide),
        valorDeChk_ok_of_none linhaBranca (by decide)]
      exact congrArg Except.ok (by decide))

/-- Accepted 400-character line whose captured amount group is 309
nines, at which the float conversion overflows. -/
def linhaOverflow : List Char :=
  '1' :: (List.replicate 5 '0' ++
    (List.replicate 309 '9' ++ ('4' :: '5' :: '7' :: List.replicate 82 ' ')))

set_option exponentiation.threshold 1100 in
set_option maxRecDepth 100000 in
/-- Counterexample to C3 as originally stated: this line of length 400
starting with `'1'` does not yield a record, because the unguarded
amount conversion raises. -/
theorem c3_line_parser_acceptance_counterexample :
    400 ≤ linhaOverflow.length ∧ linhaOverflow.take 1 = ['1'] ∧
    parse_cnab_linha_chk linhaOverflow = Except.error () := by
  refine ⟨by decide, by decide, ?_⟩
  rw [parse_chk_accepted linhaOverflow (by decide) (by decide),
    (valorDeChk_error_iff linhaOverflow).mpr
      ⟨List.replicate 309 '9', by decide, by decide⟩]

lemma idTitulo_spec (l : List Char) :
    idTituloDe l = normalizacaoSpec (pyStrip (pySlice l 108 122)) := by
  unfold idTituloDe normalizacaoSpec
  by_cases h :
      '-' ∈ (if (pyStrip (pySlice l 108 122)).take 3 = ['2', '1', '0']
             then (pyStrip (pySlice l 108 122)).drop 3 else pyStrip (pySlice l 108 122))
  · rw [if_pos h]
  · rw [if_neg h]
    refine (takeWhile_eq_self_of (fun c hc => ?_)).symm
    have hne : c ≠ '-' := fun he => h (he ▸ hc)
    simp [hne]

set_option maxHeartbeats 1000000 in
/-- C4: on every accepted line the emitted operation identifier is the
trimmed field at columns 108-122 with a leading `"210"` removed when
present and with the first hyphen and everything after it removed; the
example `"2104757146-027"` normalizes to `"4757146"`. -/
theorem c4_operation_identifier (l : List Char) (r : DetailRecord)
    (h : parse_cnab_linha l = some r) :
    r.id_titulo = normalizacaoSpec (pyStrip (pySlice l 108 122)) ∧
    normalizacaoSpec "2104757146-027".data = "4757146".data := by
  obtain ⟨-, -, hrec⟩ := parse_some_inv l r h
  refine ⟨?_, by decide⟩
  exact (congrArg DetailRecord.id_titulo hrec).trans (idTitulo_spec l)

/-- Line whose identifier field holds the specification's example. -/
def linhaC4 : List Char :=
  '1' :: (List.replicate 107 ' ' ++ ("2104757146-027".data ++ List.replicate 278 ' '))

/-- Record produced by the parser on `linhaC4`. -/
def registroC4 : DetailRecord :=
  ⟨[], "000.000.000-00".data, 0, "4757146".data, [], [], [], []⟩

set_option maxRecDepth 8000 in
/-- Witness for C4 at the specification's example identifier. -/
theorem c4_operation_identifier_witness :
    registroC4.id_titulo = normalizacaoSpec (pyStrip (pySlice linhaC4 108 122)) ∧
    normalizacaoSpec "2104757146-027".data = "4757146".data :=
  c4_operation_identifier linhaC4 registroC4 (by decide)

lemma all_append {p : Char → Bool} {l1 l2 : List Char} (h1 : l1.all p = true)
    (h2 : l2.all p = true) : (l1 ++ l2).all p = true := by
  rw [List.all_eq_true] at *
  intro x hx
  rcases List.mem_append.mp hx with hx | hx
  · exact h1 x hx
  · exact h2 x hx

lemma filter_all_isDigit (l : List Char) : (l.filter Char.isDigit).all Char.isDigit = true := by
  rw [List.all_eq_true]
  intro x hx
  exact (List.mem_filter.mp hx).2

/-- C6: the document formatter keeps only the digits, the last eleven of
them when more remain, left-padded with `'0'` to eleven, and always emits
the shape `DDD.DDD.DDD-DD`. -/
theorem c6_format_document (doc : List Char) :
    ∃ a b c e : List Char,
      a.length = 3 ∧ b.length = 3 ∧ c.length = 3 ∧ e.length = 2 ∧
      (a ++ b ++ c ++ e).all Char.isDigit = true ∧
      formatar_cpf_cnpj doc = a ++ '.' :: (b ++ '.' :: (c ++ '-' :: e)) ∧
      a ++ b ++ c ++ e =
        List.replicate
          (11 - (if 11 < (doc.filter Char.isDigit).length
                 then (doc.filter Char.isDigit).drop ((doc.filter Char.isDigit).length - 11)
                 else doc.filter Char.isDigit).length) '0' ++
          (if 11 < (doc.filter Char.isDigit).length
           then (doc.filter Char.isDigit).drop ((doc.filter Char.isDigit).length - 11)
           else doc.filter Char.isDigit) := by
  have hd2len :
      (if 11 < (doc.filter Char.isDigit).length
       then (doc.filter Char.isDigit).drop ((doc.filter Char.isDigit).length - 11)
       else doc.filter Char.isDigit).length ≤ 11 := by
    by_cases h : 11 < (doc.filter Char.isDigit).length
    · rw [if_pos h]
      rw [List.length_drop]
      omega
    · rw [if_neg h]
      omega
  set d2 :=
    (if 11 < (doc.filter Char.isDigit).length
     then (doc.filter Char.isDigit).drop ((doc.filter Char.isDigit).length - 11)
     else doc.filter Char.isDigit) with hd2
  set d3 := List.replicate (11 - d2.length) '0' ++ d2 with hd3
  have hlen3 : d3.length = 11 := by
    rw [hd3, List.length_append, List.length_replicate]
    omega
  have hall : d3.all Char.isDigit = true := by
    refine all_append ?_ ?_
    · rw [List.all_eq_true]
      intro x hx
      rw [List.eq_of_mem_replicate hx]
      decide
    · rw [hd2]
      by_cases h : 11 < (doc.filter Char.isDigit).length
      · rw [if_pos h]
        rw [List.all_eq_true]
        intro x hx
        exact (List.mem_filter.mp (List.mem_of_mem_drop hx)).2
      · rw [if_neg h]
        exact filter_all_isDigit doc
  refine ⟨d3.take 3, (d3.drop 3).take 3, (d3.drop 6).take 3, d3.drop 9,
    ?_, ?_, ?_, ?_, ?_, ?_, ?_⟩
  · rw [List.length_take, hlen3]
    omega
  · rw [List.length_take, List.length_drop, hlen3]
    omega
  · rw [List.length_take, List.length_drop, hlen3]
    omega
  · rw [List.length_drop, hlen3]
  · have hdec : d3.take 3 ++ (d3.drop 3).take 3 ++ (d3.drop 6).take 3 ++ d3.drop 9 = d3 := by
      have h1 : (d3.drop 3).take 3 = (d3.drop 3).take 3 := rfl
      have e1 : d3.take 3 ++ d3.drop 3 = d3 := List.take_append_drop 3 d3
      have e2 : (d3.drop 3).take 3 ++ (d3.drop 3).drop 3 = d3.drop 3 :=
        List.take_append_drop 3 (d3.drop 3)
      have e3 : (d3.drop 6).take 3 ++ (d3.drop 6).drop 3 = d3.drop 6 :=
        List.take_append_drop 3 (d3.drop 6)
      have e4 : (d3.drop 3).drop 3 = d3.drop 6 := by
        rw [List.drop_drop]
      have e5 : (d3.drop 6).drop 3 = d3.drop 9 := by
        rw [List.drop_drop]
      calc d3.take 3 ++ (d3.drop 3).take 3 ++ (d3.drop 6).take 3 ++ d3.drop 9
          = d3.take 3 ++ ((d3.drop 3).take 3 ++ ((d3.drop 6).take 3 ++ (d3.drop 6).drop 3)) := by
            rw [e5]; simp [List.append_assoc]
        _ = d3.take 3 ++ ((d3.drop 3).take 3 ++ (d3.drop 3).drop 3) := by rw [e3, e4]
        _ = d3.take 3 ++ d3.drop 3 := by rw [e2]
        _ = d3 := e1
    rw [hdec]
    exact hall
  · unfold formatar_cpf_cnpj
    simp only [← hd2, ← hd3]
    rw [if_pos hlen3]
  · have hdec : d3.take 3 ++ (d3.drop 3).take 3 ++ (d3.drop 6).take 3 ++ d3.drop 9 = d3 := by
      have e1 : d3.take 3 ++ d3.drop 3 = d3 := List.take_append_drop 3 d3
      have e2 : (d3.drop 3).take 3 ++ (d3.drop 3).drop 3 = d3.drop 3 :=
        List.take_append_drop 3 (d3.drop 3)
      have e3 : (d3.drop 6).take 3 ++ (d3.drop 6).drop 3 = d3.drop 6 :=
        List.take_append_drop 3 (d3.drop 6)
      have e4 : (d3.drop 3).drop 3 = d3.drop 6 := by rw [List.drop_drop]
      have e5 : (d3.drop 6).drop 3 = d3.drop 9 := by rw [List.drop_drop]
      calc d3.take 3 ++ (d3.drop 3).take 3 ++ (d3.drop 6).take 3 ++ d3.drop 9
          = d3.take 3 ++ ((d3.drop 3).take 3 ++ ((d3.drop 6).take 3 ++ (d3.drop 6).drop 3)) := by
            rw [e5]; simp [List.append_assoc]
        _ = d3.take 3 ++ ((d3.drop 3).take 3 ++ (d3.drop 3).drop 3) := by rw [e3, e4]
        _ = d3.take 3 ++ d3.drop 3 := by rw [e2]
        _ = d3 := e1
    rw [hdec, hd3]

lemma digitoChar_isDigit {d : ℕ} (h : d < 10) : (digitoChar d).isDigit = true := by
  interval_cases d <;> decide

lemma charVal_digitoChar {d : ℕ} (h : d < 10) : charVal (digitoChar d) = d := by
  interval_cases d <;> decide

lemma toDecAux_lt {n : ℕ} (fuel : ℕ) (acc : List Char) (h : n < 10) :
    toDecAux (fuel + 1) n acc = digitoChar n :: acc := by
  rw [toDecAux, if_pos h]

lemma toDecAux_ge {n : ℕ} (fuel : ℕ) (acc : List Char) (h : ¬n < 10) :
    toDecAux (fuel + 1) n acc = toDecAux fuel (n / 10) (digitoChar (n % 10) :: acc) := by
  rw [toDecAux, if_neg h]

lemma toDecAux_eq (n : ℕ) :
    ∀ fuel : ℕ, ∀ acc : List Char, n < fuel → toDecAux fuel n acc = toDec n ++ acc := by
  induction n using Nat.strong_induction_on with
  | _ n ih =>
    intro fuel acc hf
    obtain ⟨f, rfl⟩ : ∃ f, fuel = f + 1 := ⟨fuel - 1, by omega⟩
    by_cases h : n < 10
    · rw [toDecAux_lt f acc h, toDec, toDecAux_lt n [] h]
      rfl
    · have hdiv : n / 10 < n := Nat.div_lt_self (by omega) (by omega)
      have hr : toDec n = toDec (n / 10) ++ [digitoChar (n % 10)] := by
        rw [toDec, toDecAux_ge n [] h, ih (n / 10) hdiv n [digitoChar (n % 10)] (by omega)]
      rw [toDecAux_ge f acc h, ih (n / 10) hdiv f (digitoChar (n % 10) :: acc) (by omega), hr]
      simp

lemma toDec_ne_nil (n : ℕ) : toDec n ≠ [] := by
  rw [toDec]
  by_cases h : n < 10
  · rw [toDecAux_lt n [] h]
    simp
  · rw [toDecAux_ge n [] h,
        toDecAux_eq (n / 10) n [digitoChar (n % 10)] (by omega)]
    simp

lemma toDec_all_isDigit (n : ℕ) : (toDec n).all Char.isDigit = true := by
  induction n using Nat.strong_induction_on with
  | _ n ih =>
    rw [toDec]
    by_cases h : n < 10
    · rw [toDecAux_lt n [] h]
      simp [digitoChar_isDigit h]
    · rw [toDecAux_ge n [] h,
          toDecAux_eq (n / 10) n [digitoChar (n % 10)] (by omega)]
      refine all_append (ih (n / 10) (Nat.div_lt_self (by omega) (by omega))) ?_
      simp [digitoChar_isDigit (Nat.mod_lt n (by omega))]

lemma natOfDigits_shift (l : List Char) :
    ∀ a : ℕ, l.foldl (fun a c => a * 10 + charVal c) a =
      a * 10 ^ l.length + l.foldl (fun a c => a * 10 + charVal c) 0 := by
  induction l with
  | nil => intro a; simp
  | cons c t ih =>
    intro a
    rw [List.foldl_cons, List.foldl_cons, ih (a * 10 + charVal c), ih (0 * 10 + charVal c),
        List.length_cons]
    ring

lemma natOfDigits_append (l1 l2 : List Char) :
    natOfDigits (l1 ++ l2) = natOfDigits l1 * 10 ^ l2.length + natOfDigits l2 := by
  rw [natOfDigits, natOfDigits, natOfDigits, List.foldl_append, natOfDigits_shift]

lemma toDec_correct (n : ℕ) : natOfDigits (toDec n) = n := by
  induction n using Nat.strong_induction_on with
  | _ n ih =>
    by_cases h : n < 10
    · rw [toDec, toDecAux_lt n [] h]
      show natOfDigits [digitoChar n] = n
      simp [natOfDigits, charVal_digitoChar h]
    · rw [toDec, toDecAux_ge n [] h,
          toDecAux_eq (n / 10) n [digitoChar (n % 10)] (by omega), natOfDigits_append,
          ih (n / 10) (Nat.div_lt_self (by omega) (by omega))]
      have h2 : natOfDigits [digitoChar (n % 10)] = n % 10 := by
        simp [natOfDigits, charVal_digitoChar (Nat.mod_lt n (show 0 < 10 by omega))]
      rw [h2]
      simp
      omega

lemma agrupaRev_filter :
    ∀ r : List Char, r.all Char.isDigit = true →
      (agrupaMilharesRev r).filter Char.isDigit = r := by
  intro r
  induction r using agrupaMilharesRev.induct with
  | case1 a b c d rest ih =>
    intro h
    simp only [List.all_cons, Bool.and_eq_true] at h
    rw [agrupaMilharesRev]
    simp only [List.filter_cons, h.1, h.2.1, h.2.2.1]
    rw [show ('.' : Char).isDigit = false by decide]
    simp only [Bool.false_eq_true, if_false, if_true]
    rw [ih (by simp [h.2.2.2.1, h.2.2.2.2])]
  | case2 l hne =>
    intro h
    rw [agrupaMilharesRev.eq_def]
    rcases l with _ | ⟨a, _ | ⟨b, _ | ⟨c, _ | ⟨d, rest⟩⟩⟩⟩
    · rfl
    · simp_all [List.filter_cons]
    · simp_all [List.filter_cons]
    · simp_all [List.filter_cons]
    · exact absurd rfl (hne a b c d rest)

lemma isDigit_not_pySpace {c : Char} (h : c.isDigit = true) : pySpace c = false := by
  simp only [Char.isDigit, ge_iff_le, Bool.and_eq_true, decide_eq_true_eq] at h
  have h1n : 48 ≤ c.val.toNat := h.1
  have h2n : c.val.toNat ≤ 57 := h.2
  simp only [pySpace, Bool.or_eq_false_iff, decide_eq_false_iff_not, Char.toNat]
  refine ⟨⟨⟨⟨⟨⟨⟨⟨⟨⟨⟨?_, ?_⟩, ?_⟩, ?_⟩, ?_⟩, ?_⟩, ?_⟩, ?_⟩, ?_⟩, ?_⟩, ?_⟩, ?_⟩ <;> omega

lemma dropWhile_cons_of_false {p : Char → Bool} {x : Char} {xs : List Char} (h : p x = false) :
    (x :: xs).dropWhile p = x :: xs := by
  simp [List.dropWhile_cons, h]

lemma pyStrip_ends {x y : Char} (mid : List Char) (hx : pySpace x = false)
    (hy : pySpace y = false) : pyStrip (x :: (mid ++ [y])) = x :: (mid ++ [y]) := by
  unfold pyStrip
  rw [dropWhile_cons_of_false hx]
  have hrev : (x :: (mid ++ [y])).reverse = y :: (mid.reverse ++ [x]) := by simp
  rw [hrev, dropWhile_cons_of_false hy, ← hrev]
  simp

lemma agrupa_filter (ds : List Char) (h : ds.all Char.isDigit = true) :
    (agrupaMilhares ds).filter Char.isDigit = ds := by
  unfold agrupaMilhares
  rw [List.filter_reverse, agrupaRev_filter ds.reverse (by simpa using h)]
  simp

lemma filter_numero (n : ℕ) :
    (numero_para_valor n).filter Char.isDigit = toDec (n / 100) ++ fracao2 (n % 100) := by
  unfold numero_para_valor
  simp only [List.filter_cons, List.filter_append,
    show ('R').isDigit = false by decide, show ('$').isDigit = false by decide,
    show (' ').isDigit = false by decide, show (',').isDigit = false by decide,
    Bool.false_eq_true, if_false]
  rw [agrupa_filter _ (toDec_all_isDigit _)]
  congr 1
  unfold fracao2
  simp [List.filter_cons, digitoChar_isDigit (show n % 100 / 10 < 10 by omega),
    digitoChar_isDigit (show n % 100 % 10 < 10 by omega)]

lemma natOfDigits_fracao2 {m : ℕ} (h : m < 100) : natOfDigits (fracao2 m) = m := by
  unfold fracao2 natOfDigits
  simp [List.foldl_cons, charVal_digitoChar (show m / 10 < 10 by omega),
    charVal_digitoChar (show m % 10 < 10 by omega)]
  omega

lemma parse_valor_numero (n : ℕ) :
    parse_valor (numero_para_valor n) = if limiteFloat ≤ n then 0 else n := by
  have hsh : numero_para_valor n =
      'R' :: (('$' :: ' ' ::
        (agrupaMilhares (toDec (n / 100)) ++ [',', digitoChar (n % 100 / 10)])) ++
        [digitoChar (n % 100 % 10)]) := by
    unfold numero_para_valor fracao2
    simp
  have hstrip : pyStrip (numero_para_valor n) = numero_para_valor n := by
    rw [hsh]
    exact pyStrip_ends _ (by decide)
      (isDigit_not_pySpace (digitoChar_isDigit (Nat.mod_lt _ (by omega))))
  have hflt := filter_numero n
  have hne1 : ¬numero_para_valor n = [] := by
    rw [hsh]
    simp
  have hne2 : ¬(numero_para_valor n).filter Char.isDigit = [] := by
    rw [hflt]
    intro hc
    exact toDec_ne_nil (n / 100) (List.append_eq_nil.mp hc).1
  have hne3 : ¬(numero_para_valor n).filter Char.isDigit = ['0'] := by
    rw [hflt]
    intro hc
    have hlen := congrArg List.length hc
    rw [List.length_append] at hlen
    unfold fracao2 at hlen
    simp at hlen
  have hval : natOfDigits ((numero_para_valor n).filter Char.isDigit) = n := by
    rw [hflt, natOfDigits_append,
      natOfDigits_fracao2 (Nat.mod_lt _ (show 0 < 100 by omega)), toDec_correct]
    unfold fracao2
    simp only [List.length_cons, List.length_nil]
    omega
  unfold parse_valor
  simp only [hstrip]
  rw [if_neg hne1, if_neg hne2, if_neg hne3, hval]

set_option exponentiation.threshold 1100 in
set_option maxRecDepth 16000 in
/-- C7 (amended): `formatMoney` sends `"000000000"` to the zero-currency
string and `"100"` to `"R$ 1,00"`; the render-strip-reparse round trip
recovers every centavos count below `10^13` (the format's 13-digit
capacity, where the double pipeline is exact); and reparsing the digits
of an amount at or beyond CPython's float bound yields zero, the bare
`except` of `parse_valor` swallowing the overflow. -/
theorem c7_format_money_roundtrip :
    formatMoney "000000000".data = "R$ 0,00".data ∧
    formatMoney "100".data = "R$ 1,00".data ∧
    (∀ n : ℕ, n < 10 ^ 13 → parse_valor (numero_para_valor n) = n) ∧
    (∀ n : ℕ, limiteFloat ≤ n → parse_valor (numero_para_valor n) = 0) := by
  refine ⟨by decide, by decide, ?_, ?_⟩
  · intro n hn
    rw [parse_valor_numero, if_neg ?hge]
    case hge =>
      have hb : (10 : ℕ) ^ 13 < limiteFloat := by decide
      omega
  · intro n hn
    rw [parse_valor_numero, if_pos hn]

set_option exponentiation.threshold 1100 in
set_option maxRecDepth 16000 in
/-- Counterexample to the unrestricted round trip of C7: at `10^309`
centavos the reparse of the rendering returns zero (the bare `except`
of `parse_valor` catching the conversion overflow), not the original
count. -/
theorem c7_format_money_roundtrip_counterexample :
    parse_valor (numero_para_valor (10 ^ 309)) = 0 ∧ (10 : ℕ) ^ 309 ≠ 0 := by
  constructor
  · rw [parse_valor_numero, if_pos (by decide)]
  · have hp : 0 < (10 : ℕ) ^ 309 := Nat.pos_pow_of_pos 309 (by omega)
    omega

/-- Witness for C7 at a concrete in-range and a concrete overflowing
count. -/
theorem c7_format_money_roundtrip_witness :
    parse_valor (numero_para_valor 123456) = 123456 ∧
    parse_valor (numero_para_valor limiteFloat) = 0 :=
  ⟨c7_format_money_roundtrip.2.2.1 123456 (by decide),
   c7_format_money_roundtrip.2.2.2 limiteFloat (Nat.le_refl _)⟩

lemma lazyGroup_sound :
    ∀ l g : List Char, lazyGroup l = some g →
      g ≠ [] ∧ g.all Char.isDigit = true ∧ ∃ post, l = g ++ '4' :: '5' :: '7' :: post := by
  intro l
  induction l with
  | nil => intro g h; cases h
  | cons c rest ih =>
    intro g h
    rw [lazyGroup] at h
    by_cases hd : c.isDigit = true
    · rw [if_pos hd] at h
      by_cases ht : rest.take 3 = ['4', '5', '7']
      · rw [if_pos ht] at h
        obtain rfl : [c] = g := Option.some_inj.mp h
        refine ⟨by simp, by simp [hd], rest.drop 3, ?_⟩
        have : rest.take 3 ++ rest.drop 3 = rest := List.take_append_drop 3 rest
        rw [← this, ht]
        rfl
      · rw [if_neg ht] at h
        rcases Option.map_eq_some'.mp h with ⟨g', hg', rfl⟩
        obtain ⟨hne, hall, post, hpost⟩ := ih g' hg'
        exact ⟨by simp, by simp [hd, hall], post, by rw [hpost]; rfl⟩
    · rw [if_neg hd] at h
      cases h

lemma lazyGroup_complete :
    ∀ g : List Char, g ≠ [] → g.all Char.isDigit = true →
      ∀ post : List Char, (lazyGroup (g ++ '4' :: '5' :: '7' :: post)).isSome = true := by
  intro g
  induction g with
  | nil => intro h; exact absurd rfl h
  | cons c g' ih =>
    intro _ hall post
    rw [List.all_cons, Bool.and_eq_true] at hall
    rw [List.cons_append, lazyGroup, if_pos hall.1]
    by_cases ht : (g' ++ '4' :: '5' :: '7' :: post).take 3 = ['4', '5', '7']
    · rw [if_pos ht]
      rfl
    · rw [if_neg ht]
      have hg'ne : g' ≠ [] := by
        intro hg0
        apply ht
        rw [hg0]
        rfl
      have hsome := ih hg'ne hall.2 post
      cases hlz : lazyGroup (g' ++ '4' :: '5' :: '7' :: post) with
      | none => rw [hlz] at hsome; cases hsome
      | some g0 => rfl

lemma tryZeros_sound :
    ∀ K : ℕ, ∀ l g : List Char, tryZeros l K = some g →
      ∃ k, 5 ≤ k ∧ k ≤ K ∧ lazyGroup (l.drop k) = some g := by
  intro K
  induction K with
  | zero => intro l g h; cases h
  | succ K ih =>
    intro l g h
    rw [tryZeros] at h
    by_cases h5 : K + 1 < 5
    · rw [if_pos h5] at h
      cases h
    · rw [if_neg h5] at h
      cases hlz : lazyGroup (l.drop (K + 1)) with
      | some g0 =>
        rw [hlz] at h
        obtain rfl : g0 = g := Option.some_inj.mp h
        exact ⟨K + 1, by omega, by omega, hlz⟩
      | none =>
        rw [hlz] at h
        obtain ⟨k, h5k, hkK, hk⟩ := ih l g h
        exact ⟨k, h5k, by omega, hk⟩

lemma tryZeros_complete :
    ∀ K : ℕ, ∀ l : List Char, ∀ k : ℕ, 5 ≤ k → k ≤ K →
      (lazyGroup (l.drop k)).isSome = true → (tryZeros l K).isSome = true := by
  intro K
  induction K with
  | zero => intro l k h5 hK _; omega
  | succ K ih =>
    intro l k h5 hK hsome
    rw [tryZeros, if_neg (by omega)]
    cases hlz : lazyGroup (l.drop (K + 1)) with
    | some g0 => rfl
    | none =>
      rcases Nat.lt_or_ge k (K + 1) with hlt | hge
      · exact ih l k h5 (by omega) hsome
      · obtain rfl : k = K + 1 := by omega
        rw [hlz] at hsome
        cases hsome

lemma zerosRun_cons (c : Char) (rest : List Char) :
    zerosRun (c :: rest) = if c == '0' then zerosRun rest + 1 else 0 := by
  unfold zerosRun
  rw [List.takeWhile_cons]
  cases h : (c == '0') <;> simp [h]

lemma take_zerosRun : ∀ k : ℕ, ∀ l : List Char, k ≤ zerosRun l → l.take k = List.replicate k '0' := by
  intro k
  induction k with
  | zero => intro l _; rfl
  | succ k ih =>
    intro l h
    cases l with
    | nil =>
      exfalso
      unfold zerosRun at h
      simp at h
    | cons c rest =>
      rw [zerosRun_cons] at h
      cases hc : (c == '0') with
      | false => rw [hc] at h; simp at h
      | true =>
        rw [hc] at h
        simp only [if_true] at h
        have hc' : c = '0' := by
          have := hc
          simp at this
          exact this
        rw [hc', List.take_succ_cons, List.replicate_succ, ih rest (by omega)]

lemma zerosRun_append_ge : ∀ k : ℕ, ∀ rest : List Char,
    k ≤ zerosRun (List.replicate k '0' ++ rest) := by
  intro k
  induction k with
  | zero => intro rest; omega
  | succ k ih =>
    intro rest
    rw [List.replicate_succ, List.cons_append, zerosRun_cons]
    simp only [beq_self_eq_true, if_true]
    have := ih rest
    omega

lemma searchValor_sound :
    ∀ l g : List Char, searchValor l = some g →
      g ≠ [] ∧ g.all Char.isDigit = true ∧
        ∃ pre z post, 5 ≤ z ∧
          l = pre ++ List.replicate z '0' ++ g ++ '4' :: '5' :: '7' :: post := by
  intro l
  induction l with
  | nil => intro g h; cases h
  | cons c rest ih =>
    intro g h
    rw [searchValor] at h
    cases htz : tryZeros (c :: rest) (zerosRun (c :: rest)) with
    | some g0 =>
      rw [htz] at h
      obtain rfl : g0 = g := Option.some_inj.mp h
      obtain ⟨k, h5, hkz, hlz⟩ := tryZeros_sound _ _ _ htz
      obtain ⟨hne, hall, post, hpost⟩ := lazyGroup_sound _ _ hlz
      refine ⟨hne, hall, [], k, post, h5, ?_⟩
      have hdec : (c :: rest).take k ++ (c :: rest).drop k = c :: rest :=
        List.take_append_drop k (c :: rest)
      rw [← hdec, take_zerosRun k (c :: rest) hkz, hpost]
      simp
    | none =>
      rw [htz] at h
      obtain ⟨hne, hall, pre, z, post, h5, hrest⟩ := ih g h
      refine ⟨hne, hall, c :: pre, z, post, h5, ?_⟩
      rw [hrest]
      simp

lemma searchValor_complete :
    ∀ pre : List Char, ∀ z : ℕ, ∀ g post : List Char, 5 ≤ z → g ≠ [] →
      g.all Char.isDigit = true →
      (searchValor (pre ++ List.replicate z '0' ++ g ++ '4' :: '5' :: '7' :: post)).isSome
        = true := by
  intro pre
  induction pre with
  | nil =>
    intro z g post h5 hne hall
    obtain ⟨z', rfl⟩ : ∃ z', z = z' + 1 := ⟨z - 1, by omega⟩
    have hl2 : ([] : List Char) ++ List.replicate (z' + 1) '0' ++ g ++ '4' :: '5' :: '7' :: post =
        '0' :: (List.replicate z' '0' ++ (g ++ '4' :: '5' :: '7' :: post)) := by
      simp [List.replicate_succ]
    rw [hl2, searchValor]
    set L := '0' :: (List.replicate z' '0' ++ (g ++ '4' :: '5' :: '7' :: post)) with hL
    have hLr : L = List.replicate (z' + 1) '0' ++ (g ++ '4' :: '5' :: '7' :: post) := by
      rw [hL, List.replicate_succ]
      rfl
    have hdrop : L.drop (z' + 1) = g ++ '4' :: '5' :: '7' :: post := by
      rw [hLr]
      exact List.drop_left' (List.length_replicate _ _)
    have hzr : z' + 1 ≤ zerosRun L := by
      rw [hLr]
      exact zerosRun_append_ge _ _
    have hsome : (lazyGroup (L.drop (z' + 1))).isSome = true := by
      rw [hdrop]
      exact lazyGroup_complete g hne hall post
    have htz := tryZeros_complete (zerosRun L) L (z' + 1) h5 hzr hsome
    cases htz2 : tryZeros L (zerosRun L) with
    | some g0 => rfl
    | none => rw [htz2] at htz; cases htz
  | cons c pre' ih =>
    intro z g post h5 hne hall
    have hshape :
        (c :: pre') ++ List.replicate z '0' ++ g ++ '4' :: '5' :: '7' :: post =
          c :: (pre' ++ List.replicate z '0' ++ g ++ '4' :: '5' :: '7' :: post) := by
      simp
    rw [hshape, searchValor]
    cases htz : tryZeros
        (c :: (pre' ++ List.replicate z '0' ++ g ++ '4' :: '5' :: '7' :: post))
        (zerosRun (c :: (pre' ++ List.replicate z '0' ++ g ++ '4' :: '5' :: '7' :: post))) with
    | some g0 => rfl
    | none => exact ih z g post h5 hne hall

set_option maxHeartbeats 1000000 in
/-- C2 (amended): on an accepted line the amount comes from the leftmost
`0{5,}(\d+?)457` occurrence in the whole line: extraction raises exactly
when the captured group reaches CPython's float bound; below it,
extraction succeeds with a non-negative amount stored in the parsed
record, equal to the captured centavos value wherever the double
conversion is exact (below `2^53`); with no occurrence anywhere the
amount is zero and extraction cannot fail. -/
theorem c2_amount_extraction (l : List Char) (h400 : 400 ≤ l.length)
    (h1 : l.take 1 = ['1']) :
    (valorDeChk l = Except.error () ↔
      ∃ g, searchValor l = some g ∧ limiteFloat ≤ natOfDigits g) ∧
    (∀ v : ℕ, valorDeChk l = Except.ok v →
      0 ≤ v ∧ ∃ r : DetailRecord,
        parse_cnab_linha_chk l = Except.ok (some r) ∧ r.valor = v) ∧
    ((∃ g, searchValor l = some g ∧ natOfDigits g < limiteFloat ∧
        (∃ v, valorDeChk l = Except.ok v ∧ (natOfDigits g < 2 ^ 53 → v = natOfDigits g)) ∧
        ∃ pre z post, 5 ≤ z ∧ g ≠ [] ∧ g.all Char.isDigit = true ∧
          l = pre ++ List.replicate z '0' ++ g ++ '4' :: '5' :: '7' :: post) ∨
     (∃ g, searchValor l = some g ∧ limiteFloat ≤ natOfDigits g ∧
        valorDeChk l = Except.error ()) ∨
     (searchValor l = none ∧ valorDeChk l = Except.ok 0 ∧
        ¬∃ pre z g post, 5 ≤ z ∧ g ≠ [] ∧ g.all Char.isDigit = true ∧
          l = pre ++ List.replicate z '0' ++ g ++ '4' :: '5' :: '7' :: post)) := by
  refine ⟨valorDeChk_error_iff l, ?_, ?_⟩
  · intro v hv
    refine ⟨Nat.zero_le _,
      ⟨pyStrip (pySlice l 234 274), formatar_cpf_cnpj (pyStrip (pySlice l 220 234)), v,
       idTituloDe l, pyStrip (pySlice l 274 326), cepDe l, emailDe l,
       formatar_telefone (pyStrip (pySlice l 382 394))⟩,
      ?_, rfl⟩
    rw [parse_chk_accepted l h400 h1, hv]
  · cases hsv : searchValor l with
    | some g =>
      by_cases hbig : limiteFloat ≤ natOfDigits g
      · exact Or.inr (Or.inl ⟨g, rfl, hbig, (valorDeChk_error_iff l).mpr ⟨g, hsv, hbig⟩⟩)
      · left
        obtain ⟨hne, hall, pre, z, post, h5, hdec⟩ := searchValor_sound l g hsv
        exact ⟨g, rfl, by omega,
          ⟨natOfDigits g, valorDeChk_ok_of_lt l g hsv (by omega), fun _ => rfl⟩,
          pre, z, post, h5, hne, hall, hdec⟩
    | none =>
      refine Or.inr (Or.inr ⟨rfl, valorDeChk_ok_of_none l hsv, ?_⟩)
      rintro ⟨pre, z, g, post, h5, hne, hall, hdec⟩
      have hc := searchValor_complete pre z g post h5 hne hall
      rw [← hdec, hsv] at hc
      cases hc

/-- Line carrying the amount pattern `00000123457` in free text. -/
def linhaC2 : List Char :=
  '1' :: (List.replicate 300 ' ' ++ ("00000123457".data ++ List.replicate 88 ' '))

set_option maxRecDepth 16000 in
/-- Witness for C2 at a concrete line holding one in-range amount
pattern. -/
theorem c2_amount_extraction_witness :
    (valorDeChk linhaC2 = Except.error () ↔
      ∃ g, searchValor linhaC2 = some g ∧ limiteFloat ≤ natOfDigits g) ∧
    (∀ v : ℕ, valorDeChk linhaC2 = Except.ok v →
      0 ≤ v ∧ ∃ r : DetailRecord,
        parse_cnab_linha_chk linhaC2 = Except.ok (some r) ∧ r.valor = v) ∧
    ((∃ g, searchValor linhaC2 = some g ∧ natOfDigits g < limiteFloat ∧
        (∃ v, valorDeChk linhaC2 = Except.ok v ∧ (natOfDigits g < 2 ^ 53 → v = natOfDigits g)) ∧
        ∃ pre z post, 5 ≤ z ∧ g ≠ [] ∧ g.all Char.isDigit = true ∧
          linhaC2 = pre ++ List.replicate z '0' ++ g ++ '4' :: '5' :: '7' :: post) ∨
     (∃ g, searchValor linhaC2 = some g ∧ limiteFloat ≤ natOfDigits g ∧
        valorDeChk linhaC2 = Except.error ()) ∨
     (searchValor linhaC2 = none ∧ valorDeChk linhaC2 = Except.ok 0 ∧
        ¬∃ pre z g post, 5 ≤ z ∧ g ≠ [] ∧ g.all Char.isDigit = true ∧
          linhaC2 = pre ++ List.replicate z '0' ++ g ++ '4' :: '5' :: '7' :: post)) :=
  c2_amount_extraction linhaC2 (by decide) (by decide)

set_option exponentiation.threshold 1100 in
set_option maxRecDepth 100000 in
/-- Counterexample to C2 as originally stated: on this accepted line the
pattern scan captures 309 nines and the extraction raises instead of
yielding a value. -/
theorem c2_amount_extraction_counterexample :
    400 ≤ linhaOverflow.length ∧ linhaOverflow.take 1 = ['1'] ∧
    searchValor linhaOverflow = some (List.replicate 309 '9') ∧
    valorDeChk linhaOverflow = Except.error () :=
  ⟨by decide, by decide, by decide,
   (valorDeChk_error_iff linhaOverflow).mpr ⟨List.replicate 309 '9', by decide, by decide⟩⟩

lemma mem_of_getElemOpt {l : List Char} {a : Char} {i : ℕ} (h : l[i]? = some a) : a ∈ l := by
  obtain ⟨hlt, he⟩ := List.getElem?_eq_some.mp h
  exact he ▸ List.getElem_mem hlt

lemma buscaCep_sound :
    ∀ region : List Char, ∀ j : ℕ, buscaCep region = some j →
      8 ≤ (region.drop j).length ∧ ((region.drop j).take 8).all Char.isDigit = true := by
  intro region
  induction region with
  | nil => intro j h; cases h
  | cons c rest ih =>
    intro j h
    rw [buscaCep] at h
    by_cases hc : 8 ≤ (c :: rest).length ∧ ((c :: rest).take 8).all Char.isDigit = true
    · rw [if_pos hc] at h
      obtain rfl : (0 : ℕ) = j := Option.some_inj.mp h
      exact hc
    · rw [if_neg hc] at h
      rcases Option.map_eq_some'.mp h with ⟨j', hj', rfl⟩
      exact ih j' hj'

lemma mem_dropWhile {p : Char → Bool} {c : Char} :
    ∀ {l : List Char}, c ∈ l → p c = false → c ∈ l.dropWhile p := by
  intro l
  induction l with
  | nil => intro hc _; cases hc
  | cons d t ih =>
    intro hc hp
    rw [List.dropWhile_cons]
    by_cases hd : p d = true
    · rw [hd]
      simp only [if_true]
      rcases List.mem_cons.mp hc with rfl | hct
      · rw [hp] at hd; cases hd
      · exact ih hct hp
    · rw [Bool.not_eq_true] at hd
      rw [hd]
      simpa using hc
  
lemma mem_pyStrip {c : Char} {l : List Char} (hc : c ∈ l) (hp : pySpace c = false) :
    c ∈ pyStrip l := by
  unfold pyStrip
  rw [List.mem_reverse]
  exact mem_dropWhile (List.mem_reverse.mpr (mem_dropWhile hc hp)) hp

set_option maxHeartbeats 1000000 in
/-- C10: the postal-code window (columns 310-340) overlaps the address
field (columns 274-326): when the leftmost eight-digit run starts at
offset `j < 16` of the window, each of its characters lying before
column 326 coincides positionally with the address slice and belongs to
the emitted (trimmed) address string, while the emitted postal code is
built from exactly that run. -/
theorem c10_postal_address_overlap (l : List Char) (r : DetailRecord)
    (h : parse_cnab_linha l = some r) (j : ℕ)
    (hj : buscaCep (pySlice l 310 340) = some j) (hlt : j < 16) :
    r.cep = formatar_cep (((pySlice l 310 340).drop j).take 8) ∧
    ∀ i : ℕ, i < 8 → i < 16 - j →
      ((((pySlice l 310 340).drop j).take 8)[i]? = (pySlice l 274 326)[36 + j + i]? ∧
       ∀ c : Char, (((pySlice l 310 340).drop j).take 8)[i]? = some c → c ∈ r.endereco) := by
  obtain ⟨h400, -, hrec⟩ := parse_some_inv l r h
  obtain ⟨hlen8, hdig⟩ := buscaCep_sound _ _ hj
  have hcep : r.cep = cepDe l := congrArg DetailRecord.cep hrec
  have hend : r.endereco = pyStrip (pySlice l 274 326) := congrArg DetailRecord.endereco hrec
  have hidx : ∀ i : ℕ, i < 8 → i < 16 - j →
      (((pySlice l 310 340).drop j).take 8)[i]? = (pySlice l 274 326)[36 + j + i]? := by
    intro i hi8 hi16
    unfold pySlice
    rw [List.getElem?_take, if_pos hi8, List.getElem?_drop, List.getElem?_take,
      if_pos (show j + i < 340 - 310 by omega), List.getElem?_drop,
      List.getElem?_take, if_pos (show 36 + j + i < 326 - 274 by omega), List.getElem?_drop]
    congr 1
    omega
  constructor
  · rw [hcep]
    unfold cepDe
    rw [hj]
  · intro i hi8 hi16
    refine ⟨hidx i hi8 hi16, ?_⟩
    intro c hc
    have hcdig : c.isDigit = true := by
      rw [List.all_eq_true] at hdig
      exact hdig c (mem_of_getElemOpt hc)
    have hmem : c ∈ pySlice l 274 326 := by
      rw [hidx i hi8 hi16] at hc
      exact mem_of_getElemOpt hc
    rw [hend]
    exact mem_pyStrip hmem (isDigit_not_pySpace hcdig)

/-- Line whose postal-code run sits at columns 310-317, inside the
address field. -/
def linhaC10 : List Char :=
  '1' :: (List.replicate 309 ' ' ++ ("12345678".data ++ List.replicate 82 ' '))

/-- Record produced by the parser on `linhaC10`: the run belongs to both
the address and the postal code. -/
def registroC10 : DetailRecord :=
  ⟨[], "000.000.000-00".data, 0, [], "12345678".data, "12345-678".data, [], []⟩

set_option maxRecDepth 16000 in
/-- Witness for C10 at a concrete line whose run starts at offset 0 of
the window. -/
theorem c10_postal_address_overlap_witness :
    registroC10.cep = formatar_cep (((pySlice linhaC10 310 340).drop 0).take 8) ∧
    (((pySlice linhaC10 310 340).drop 0).take 8)[0]? = (pySlice linhaC10 274 326)[36]? ∧
    '1' ∈ registroC10.endereco := by
  have h := c10_postal_address_overlap linhaC10 registroC10 (by decide) 0 (by decide) (by decide)
  refine ⟨h.1, ?_, ?_⟩
  · exact (h.2 0 (by decide) (by decide)).1
  · exact (h.2 0 (by decide) (by decide)).2 '1' (by decide)

lemma atualiza_id (r : DetailRecord) (o : OperationSummary) :
    (atualizaOperacao r o).id_titulo = o.id_titulo := by
  unfold atualizaOperacao
  by_cases h : o.id_titulo = r.id_titulo <;> simp [h]

lemma nova_id (r : DetailRecord) : (novaOperacao r).id_titulo = r.id_titulo := rfl

lemma entrada_map_atualiza (k : List Char) (r : DetailRecord) (acc : List OperationSummary) :
    entrada k (acc.map (atualizaOperacao r)) = (entrada k acc).map (atualizaOperacao r) := by
  unfold entrada
  rw [List.filter_map]
  congr 1
  apply List.filter_congr
  intro o _
  simp [Function.comp, atualiza_id]

lemma entrada_append (k : List Char) (l1 l2 : List OperationSummary) :
    entrada k (l1 ++ l2) = entrada k l1 ++ entrada k l2 := by
  unfold entrada
  exact List.filter_append l1 l2

lemma entrada_single_mem {k : List Char} {o : OperationSummary} {acc : List OperationSummary}
    (h : entrada k acc = [o]) : o ∈ acc ∧ o.id_titulo = k := by
  have hm : o ∈ entrada k acc := by rw [h]; simp
  unfold entrada at hm
  obtain ⟨h1, h2⟩ := List.mem_filter.mp hm
  exact ⟨h1, by simpa using h2⟩

lemma entrada_nil_iff {k : List Char} {acc : List OperationSummary} :
    entrada k acc = [] ↔ ∀ o ∈ acc, o.id_titulo ≠ k := by
  unfold entrada
  rw [List.filter_eq_nil_iff]
  constructor
  · intro h o ho
    intro he
    exact h o ho (by simp [he])
  · intro h o ho hb
    exact h o ho (by simpa using hb)

lemma regsCom_cons_eq (k : List Char) (r : DetailRecord) (rs : List DetailRecord)
    (h : r.id_titulo = k) : regsCom k (r :: rs) = r :: regsCom k rs := by
  unfold regsCom
  rw [List.filter_cons, if_pos (by simp [h])]

lemma regsCom_cons_ne (k : List Char) (r : DetailRecord) (rs : List DetailRecord)
    (h : r.id_titulo ≠ k) : regsCom k (r :: rs) = regsCom k rs := by
  unfold regsCom
  rw [List.filter_cons, if_neg (by simp [h])]

lemma acumula_cons (o : OperationSummary) (r : DetailRecord) (rs : List DetailRecord) :
    acumula o (r :: rs) =
      acumula { o with quantidade_parcelas := o.quantidade_parcelas + 1,
                       valor_total := o.valor_total + r.valor } rs := rfl

lemma atualiza_eq_of_id {r : DetailRecord} {o : OperationSummary} (h : o.id_titulo = r.id_titulo) :
    atualizaOperacao r o =
      { o with quantidade_parcelas := o.quantidade_parcelas + 1,
               valor_total := o.valor_total + r.valor } := by
  unfold atualizaOperacao
  rw [if_pos h]

lemma atualiza_eq_of_ne {r : DetailRecord} {o : OperationSummary} (h : ¬o.id_titulo = r.id_titulo) :
    atualizaOperacao r o = o := by
  unfold atualizaOperacao
  rw [if_neg h]

lemma entrada_foldl_present (k : List Char) :
    ∀ rs : List DetailRecord, ∀ acc : List OperationSummary, ∀ o : OperationSummary,
      entrada k acc = [o] →
      entrada k (rs.foldl insereRegistro acc) = [acumula o (regsCom k rs)] := by
  intro rs
  induction rs with
  | nil =>
    intro acc o h
    rw [List.foldl_nil, h]
    rfl
  | cons r rs' ih =>
    intro acc o h
    obtain ⟨hmem, hok⟩ := entrada_single_mem h
    rw [List.foldl_cons]
    by_cases hid : r.id_titulo = k
    · have hex : ∃ o' ∈ acc, o'.id_titulo = r.id_titulo := ⟨o, hmem, by rw [hok, hid]⟩
      have hins : insereRegistro acc r = acc.map (atualizaOperacao r) := by
        unfold insereRegistro
        rw [if_pos hex]
      rw [hins]
      have hent : entrada k (acc.map (atualizaOperacao r)) = [atualizaOperacao r o] := by
        rw [entrada_map_atualiza, h]
        rfl
      rw [ih _ _ hent, regsCom_cons_eq k r rs' hid, acumula_cons,
          atualiza_eq_of_id (by rw [hok, hid])]
    · have hins1 : entrada k (insereRegistro acc r) = [o] := by
        unfold insereRegistro
        by_cases hex : ∃ o' ∈ acc, o'.id_titulo = r.id_titulo
        · rw [if_pos hex, entrada_map_atualiza, h]
          simp [atualiza_eq_of_ne (show ¬o.id_titulo = r.id_titulo by rw [hok]; exact fun he => hid he.symm)]
        · rw [if_neg hex, entrada_append, h]
          have : entrada k [novaOperacao r] = [] := by
            rw [entrada_nil_iff]
            intro o' ho'
            rw [List.mem_singleton.mp ho', nova_id]
            exact hid
          rw [this]
          simp
      rw [ih _ _ hins1, regsCom_cons_ne k r rs' hid]

lemma entrada_foldl_absent (k : List Char) :
    ∀ rs : List DetailRecord, ∀ acc : List OperationSummary,
      entrada k acc = [] →
      entrada k (rs.foldl insereRegistro acc) =
        (match regsCom k rs with
         | [] => []
         | r0 :: rest => [acumula (novaOperacao r0) rest]) := by
  intro rs
  induction rs with
  | nil =>
    intro acc h
    rw [List.foldl_nil, h]
    rfl
  | cons r rs' ih =>
    intro acc h
    rw [List.foldl_cons]
    by_cases hid : r.id_titulo = k
    · have hex : ¬∃ o' ∈ acc, o'.id_titulo = r.id_titulo := by
        rintro ⟨o', ho', he⟩
        exact (entrada_nil_iff.mp h o' ho') (by rw [he, hid])
      have hins : insereRegistro acc r = acc ++ [novaOperacao r] := by
        unfold insereRegistro
        rw [if_neg hex]
      have hent : entrada k (acc ++ [novaOperacao r]) = [novaOperacao r] := by
        rw [entrada_append, h]
        unfold entrada
        rw [List.filter_cons, if_pos (by simp [nova_id, hid])]
        rfl
      rw [hins, entrada_foldl_present k rs' _ _ hent, regsCom_cons_eq k r rs' hid]
    · have hent : entrada k (insereRegistro acc r) = [] := by
        unfold insereRegistro
        by_cases hex : ∃ o' ∈ acc, o'.id_titulo = r.id_titulo
        · rw [if_pos hex, entrada_map_atualiza, h]
          rfl
        · rw [if_neg hex, entrada_append, h]
          have : entrada k [novaOperacao r] = [] := by
            rw [entrada_nil_iff]
            intro o' ho'
            rw [List.mem_singleton.mp ho', nova_id]
            exact hid
          rw [this]
          simp
      rw [ih _ hent, regsCom_cons_ne k r rs' hid]

lemma acumula_fields (rs : List DetailRecord) :
    ∀ o : OperationSummary,
      (acumula o rs).nome = o.nome ∧ (acumula o rs).cpf_cnpj = o.cpf_cnpj ∧
      (acumula o rs).id_titulo = o.id_titulo ∧ (acumula o rs).endereco = o.endereco ∧
      (acumula o rs).cep = o.cep ∧ (acumula o rs).email = o.email ∧
      (acumula o rs).telefone = o.telefone := by
  induction rs with
  | nil => intro o; exact ⟨rfl, rfl, rfl, rfl, rfl, rfl, rfl⟩
  | cons r rs' ih =>
    intro o
    rw [acumula_cons]
    exact ih _

lemma acumula_parcelas (rs : List DetailRecord) :
    ∀ o : OperationSummary,
      (acumula o rs).quantidade_parcelas = o.quantidade_parcelas + rs.length := by
  induction rs with
  | nil => intro o; rfl
  | cons r rs' ih =>
    intro o
    rw [acumula_cons, ih]
    simp only [List.length_cons]
    omega

lemma acumula_total (rs : List DetailRecord) :
    ∀ o : OperationSummary,
      (acumula o rs).valor_total = o.valor_total + (rs.map DetailRecord.valor).sum := by
  induction rs with
  | nil => intro o; simp [acumula]
  | cons r rs' ih =>
    intro o
    rw [acumula_cons, ih]
    simp only [List.map_cons, List.sum_cons]
    omega

lemma agrupar_ids_observed :
    ∀ rs : List DetailRecord, ∀ acc : List OperationSummary,
      ∀ o ∈ rs.foldl insereRegistro acc,
        (∃ o' ∈ acc, o'.id_titulo = o.id_titulo) ∨ ∃ r ∈ rs, r.id_titulo = o.id_titulo := by
  intro rs
  induction rs with
  | nil =>
    intro acc o ho
    exact Or.inl ⟨o, ho, rfl⟩
  | cons r rs' ih =>
    intro acc o ho
    rw [List.foldl_cons] at ho
    rcases ih _ o ho with hacc | hrs
    · obtain ⟨o', ho', hid⟩ := hacc
      unfold insereRegistro at ho'
      by_cases hex : ∃ o2 ∈ acc, o2.id_titulo = r.id_titulo
      · rw [if_pos hex] at ho'
        obtain ⟨o0, ho0, heq⟩ := List.mem_map.mp ho'
        refine Or.inl ⟨o0, ho0, ?_⟩
        rw [← hid, ← heq, atualiza_id]
      · rw [if_neg hex] at ho'
        rcases List.mem_append.mp ho' with h1 | h2
        · exact Or.inl ⟨o', h1, hid⟩
        · refine Or.inr ⟨r, by simp, ?_⟩
          rw [← hid, List.mem_singleton.mp h2, nova_id]
    · obtain ⟨r', hr', hid⟩ := hrs
      exact Or.inr ⟨r', by simp [hr'], hid⟩

/-- C1: for every record list and every identifier that occurs in it, the
aggregation holds exactly one entry for that identifier; its descriptive
fields are those of the first record carrying the identifier, its
installment count is the number of such records and its total is the sum
of their amounts; and every emitted entry's identifier occurs among the
records. -/
theorem c1_aggregation_correct (rs : List DetailRecord) (k : List Char) (r0 : DetailRecord)
    (hh : (regsCom k rs).head? = some r0) :
    (∃ o : OperationSummary,
      entrada k (agrupar rs) = [o] ∧
      o.id_titulo = k ∧
      o.nome = r0.nome ∧ o.cpf_cnpj = r0.cpf_cnpj ∧ o.endereco = r0.endereco ∧
      o.cep = r0.cep ∧ o.email = r0.email ∧ o.telefone = r0.telefone ∧
      o.quantidade_parcelas = (regsCom k rs).length ∧
      o.valor_total = ((regsCom k rs).map DetailRecord.valor).sum) ∧
    (∀ o ∈ agrupar rs, ∃ r ∈ rs, r.id_titulo = o.id_titulo) := by
  constructor
  · cases hrc : regsCom k rs with
    | nil => rw [hrc] at hh; cases hh
    | cons a rest =>
      rw [hrc] at hh
      have ha : a = r0 := by simpa using hh
      subst ha
      have habs := entrada_foldl_absent k rs [] rfl
      rw [hrc] at habs
      have hid0 : a.id_titulo = k := by
        have hm : a ∈ regsCom k rs := by rw [hrc]; simp
        unfold regsCom at hm
        have hmf := (List.mem_filter.mp hm).2
        simpa using hmf
      refine ⟨acumula (novaOperacao a) rest, habs, ?_, ?_, ?_, ?_, ?_, ?_, ?_, ?_, ?_⟩
      · rw [(acumula_fields rest _).2.2.1, nova_id, hid0]
      · exact (acumula_fields rest _).1
      · exact (acumula_fields rest _).2.1
      · exact (acumula_fields rest _).2.2.2.1
      · exact (acumula_fields rest _).2.2.2.2.1
      · exact (acumula_fields rest _).2.2.2.2.2.1
      · exact (acumula_fields rest _).2.2.2.2.2.2
      · rw [acumula_parcelas]
        simp [novaOperacao]
        omega
      · rw [acumula_total]
        simp [novaOperacao]
  · intro o ho
    rcases agrupar_ids_observed rs [] o ho with h1 | h2
    · obtain ⟨o', ho', -⟩ := h1
      cases ho'
    · exact h2

/-- Sample record with identifier `"A"`. -/
def registroA : DetailRecord :=
  ⟨"ANA".data, [], 1000, "A".data, [], [], [], []⟩

/-- Sample record with identifier `"B"`. -/
def registroB : DetailRecord :=
  ⟨"BETO".data, [], 2000, "B".data, [], [], [], []⟩

/-- Witness for C1 on a concrete two-record list. -/
theorem c1_aggregation_correct_witness :
    (∃ o : OperationSummary,
      entrada "A".data (agrupar [registroA, registroB]) = [o] ∧
      o.id_titulo = "A".data ∧
      o.nome = registroA.nome ∧ o.cpf_cnpj = registroA.cpf_cnpj ∧
      o.endereco = registroA.endereco ∧
      o.cep = registroA.cep ∧ o.email = registroA.email ∧ o.telefone = registroA.telefone ∧
      o.quantidade_parcelas = (regsCom "A".data [registroA, registroB]).length ∧
      o.valor_total = ((regsCom "A".data [registroA, registroB]).map DetailRecord.valor).sum) ∧
    (∀ o ∈ agrupar [registroA, registroB], ∃ r ∈ [registroA, registroB],
      r.id_titulo = o.id_titulo) :=
  c1_aggregation_correct [registroA, registroB] "A".data registroA (by decide)

lemma agrupar_keys :
    ∀ rs : List DetailRecord, ∀ acc : List OperationSummary,
      (rs.foldl insereRegistro acc).map (fun o => o.id_titulo) =
        (rs.map (fun r => r.id_titulo)).foldl
          (fun ks j => if j ∈ ks then ks else ks ++ [j])
          (acc.map (fun o => o.id_titulo)) := by
  intro rs
  induction rs with
  | nil => intro acc; rfl
  | cons r rs' ih =>
    intro acc
    rw [List.foldl_cons, List.map_cons, List.foldl_cons, ih]
    congr 1
    by_cases hex : ∃ o ∈ acc, o.id_titulo = r.id_titulo
    · have hmem : r.id_titulo ∈ acc.map (fun o => o.id_titulo) := by
        obtain ⟨o, ho, he⟩ := hex
        exact List.mem_map.mpr ⟨o, ho, he⟩
      rw [if_pos hmem]
      unfold insereRegistro
      rw [if_pos hex, List.map_map]
      apply List.map_congr_left
      intro o _
      simp [Function.comp, atualiza_id]
    · have hmem : r.id_titulo ∉ acc.map (fun o => o.id_titulo) := by
        intro hm
        obtain ⟨o, ho, he⟩ := List.mem_map.mp hm
        exact hex ⟨o, ho, he⟩
      rw [if_neg hmem]
      unfold insereRegistro
      rw [if_neg hex, List.map_append]
      rfl

/-- C5: the emitted entries appear in first-seen order of their
identifiers, and for three records with identifiers `A`, `B`, `A` (with
`A ≠ B`) exactly two entries come out, in order `[A, B]`, the first with
installment count 2. -/
theorem c5_aggregator_order (rs : List DetailRecord) (r1 r2 r3 : DetailRecord)
    (A B : List Char) (h1 : r1.id_titulo = A) (h2 : r2.id_titulo = B)
    (h3 : r3.id_titulo = A) (hAB : A ≠ B) :
    (agrupar rs).map (fun o => o.id_titulo) = firstSeen (rs.map (fun r => r.id_titulo)) ∧
    ∃ s1 s2 : OperationSummary, agrupar [r1, r2, r3] = [s1, s2] ∧
      s1.id_titulo = A ∧ s2.id_titulo = B ∧ s1.quantidade_parcelas = 2 := by
  constructor
  · exact agrupar_keys rs []
  · have e1 : insereRegistro [] r1 = [novaOperacao r1] := by
      unfold insereRegistro
      rw [if_neg (by simp)]
      rfl
    have e2 : insereRegistro [novaOperacao r1] r2 = [novaOperacao r1, novaOperacao r2] := by
      unfold insereRegistro
      rw [if_neg ?hne]
      · rfl
      case hne =>
        rintro ⟨o, ho, he⟩
        rw [List.mem_singleton.mp ho, nova_id, h1] at he
        rw [h2] at he
        exact hAB he
    have e3 : insereRegistro [novaOperacao r1, novaOperacao r2] r3 =
        [atualizaOperacao r3 (novaOperacao r1), atualizaOperacao r3 (novaOperacao r2)] := by
      unfold insereRegistro
      rw [if_pos ⟨novaOperacao r1, by simp, by rw [nova_id, h1, h3]⟩]
      rfl
    have hagg : agrupar [r1, r2, r3] =
        [atualizaOperacao r3 (novaOperacao r1), atualizaOperacao r3 (novaOperacao r2)] := by
      unfold agrupar
      rw [List.foldl_cons, e1, List.foldl_cons, e2, List.foldl_cons, e3]
      rfl
    refine ⟨atualizaOperacao r3 (novaOperacao r1), atualizaOperacao r3 (novaOperacao r2),
      hagg, ?_, ?_, ?_⟩
    · rw [atualiza_id, nova_id, h1]
    · rw [atualiza_id, nova_id, h2]
    · rw [atualiza_eq_of_id (by rw [nova_id, h1, h3])]
      rfl

/-- Witness for C5 on concrete records with identifiers `A`, `B`, `A`. -/
theorem c5_aggregator_order_witness :
    (agrupar [registroA, registroB]).map (fun o => o.id_titulo) =
      firstSeen ([registroA, registroB].map (fun r => r.id_titulo)) ∧
    ∃ s1 s2 : OperationSummary, agrupar [registroA, registroB, registroA] = [s1, s2] ∧
      s1.id_titulo = "A".data ∧ s2.id_titulo = "B".data ∧ s1.quantidade_parcelas = 2 :=
  c5_aggregator_order [registroA, registroB] registroA registroB registroA
    "A".data "B".data (by decide) (by decide) (by decide) (by decide)

/-- Per-line contribution of the record-collection loop: one record for
an accepted line, nothing otherwise. -/
def contribuicao (linha : List Char) : List DetailRecord :=
  if 400 ≤ linha.length then
    match parse_cnab_linha linha with
    | some reg => [reg]
    | none => []
  else []

lemma extrair_step (registros : List DetailRecord) (linha : List Char) :
    (if 400 ≤ linha.length then
       match parse_cnab_linha linha with
       | some reg => registros ++ [reg]
       | none => registros
     else registros) = registros ++ contribuicao linha := by
  unfold contribuicao
  by_cases h : 400 ≤ linha.length
  · rw [if_pos h, if_pos h]
    cases parse_cnab_linha linha with
    | some reg => rfl
    | none => simp
  · rw [if_neg h, if_neg h]
    simp

lemma extrair_eq :
    ∀ linhas : List (List Char), ∀ acc : List DetailRecord,
      linhas.foldl
        (fun registros linha =>
          if 400 ≤ linha.length then
            match parse_cnab_linha linha with
            | some reg => registros ++ [reg]
            | none => registros
          else registros) acc =
        acc ++ (linhas.map contribuicao).flatten := by
  intro linhas
  induction linhas with
  | nil => intro acc; simp
  | cons l ls ih =>
    intro acc
    rw [List.foldl_cons, extrair_step, ih, List.map_cons, List.flatten_cons]
    simp [List.append_assoc]

lemma contribuicao_nil_iff (l : List Char) :
    contribuicao l = [] ↔ ¬(400 ≤ l.length ∧ l.take 1 = ['1']) := by
  unfold contribuicao
  by_cases h400 : 400 ≤ l.length
  · rw [if_pos h400]
    by_cases h1 : l.take 1 = ['1']
    · rw [parse_some l h400 h1]
      simp [h400, h1]
    · rw [parse_none_of l (Or.inr h1)]
      simp [h1]
  · rw [if_neg h400]
    simp [h400]

lemma foldl_insere_ne_nil :
    ∀ rs : List DetailRecord, ∀ acc : List OperationSummary,
      acc ≠ [] → rs.foldl insereRegistro acc ≠ [] := by
  intro rs
  induction rs with
  | nil => intro acc h; simpa using h
  | cons r rs' ih =>
    intro acc h
    rw [List.foldl_cons]
    refine ih _ ?_
    unfold insereRegistro
    by_cases hex : ∃ o ∈ acc, o.id_titulo = r.id_titulo
    · rw [if_pos hex]
      simpa using h
    · rw [if_neg hex]
      simp

/-- C8: processing the decoded lines of a file fails (no export at all)
exactly when no line has length at least 400 and first character `'1'`;
and a successful run never exports an empty row list. -/
theorem c8_empty_result_failure (linhas : List (List Char)) :
    (processar_linhas linhas = none ↔
      ∀ l ∈ linhas, ¬(400 ≤ l.length ∧ l.take 1 = ['1'])) ∧
    (∀ rows : List LinhaExport, processar_linhas linhas = some rows → rows ≠ []) := by
  have hreg : extrairRegistros linhas = [] ↔
      ∀ l ∈ linhas, ¬(400 ≤ l.length ∧ l.take 1 = ['1']) := by
    unfold extrairRegistros
    rw [extrair_eq linhas []]
    rw [List.nil_append, List.flatten_eq_nil_iff]
    constructor
    · intro h l hl
      exact (contribuicao_nil_iff l).mp (h _ (List.mem_map.mpr ⟨l, hl, rfl⟩))
    · intro h c hc
      obtain ⟨l, hl, rfl⟩ := List.mem_map.mp hc
      exact (contribuicao_nil_iff l).mpr (h l hl)
  constructor
  · unfold processar_linhas
    by_cases h : extrairRegistros linhas = []
    · rw [if_pos h]
      simp only [true_iff]
      exact hreg.mp h
    · rw [if_neg h]
      constructor
      · intro hc
        cases hc
      · intro hall
        exact absurd (hreg.mpr hall) h
  · intro rows hrows
    unfold processar_linhas at hrows
    by_cases h : extrairRegistros linhas = []
    · rw [if_pos h] at hrows
      cases hrows
    · rw [if_neg h] at hrows
      obtain rfl := Option.some_inj.mp hrows
      intro hmap
      rw [List.map_eq_nil_iff] at hmap
      cases hreg2 : extrairRegistros linhas with
      | nil => exact h hreg2
      | cons r0 rest =>
        have h1 : insereRegistro [] r0 = [novaOperacao r0] := by
          unfold insereRegistro
          rw [if_neg (by simp)]
          rfl
        have := foldl_insere_ne_nil rest [novaOperacao r0] (by simp)
        apply this
        unfold agrupar at hmap
        rw [hreg2, List.foldl_cons, h1] at hmap
        exact hmap

/-- Accepted line used to witness C8's success branch. -/
def linhaC8 : List Char := '1' :: List.replicate 399 ' '

set_option maxRecDepth 16000 in
/-- Witness for C8: one accepted line yields one non-empty export row. -/
theorem c8_empty_result_failure_witness :
    ([⟨[], "000.000.000-00".data, "1".data, "R$ 0,00".data, [], [], [], [], []⟩] :
      List LinhaExport) ≠ [] :=
  (c8_empty_result_failure [linhaC8]).2
    [⟨[], "000.000.000-00".data, "1".data, "R$ 0,00".data, [], [], [], [], []⟩]
    (by decide)

lemma decodeLatin1_total (bs : List ℕ) (hb : ∀ b ∈ bs, b < 256) :
    decodeLatin1 bs = some (bs.map (fun b => Char.ofNat b)) := by
  induction bs with
  | nil => rfl
  | cons b bs' ih =>
    rw [decodeLatin1]
    have hbyte : decodeLatin1Byte b = some (Char.ofNat b) := by
      unfold decodeLatin1Byte
      rw [if_pos (hb b (by simp))]
    rw [hbyte, ih (fun x hx => hb x (by simp [hx]))]
    rfl

/-- C9: on any byte content the fallback loop succeeds already with its
first candidate, latin-1, whatever the utf-8 and cp1252 decoders would
have answered: those attempts and the decode-failure branch are
unreachable from file content. -/
theorem c9_latin1_always_first (decUtf8 decCp1252 : List ℕ → Option (List Char))
    (bs : List ℕ) (hb : ∀ b ∈ bs, b < 256) :
    leituraComFallback decUtf8 decCp1252 bs =
      some (0, bs.map (fun b => Char.ofNat b)) := by
  unfold leituraComFallback
  rw [decodeLatin1_total bs hb]

/-- Witness for C9 on concrete bytes, with decoders that would fail. -/
theorem c9_latin1_always_first_witness :
    leituraComFallback (fun _ => none) (fun _ => none) [72, 101, 255] =
      some (0, [72, 101, 255].map (fun b => Char.ofNat b)) :=
  c9_latin1_always_first (fun _ => none) (fun _ => none) [72, 101, 255] (by decide)
